import Mathlib

/-!
Shallow embedding of the Bloom-filter service in `src/lab2/main.py`.

The digest algorithms themselves live in the external `hashlib` library, so
they are modelled as an abstract structure `Hashlib`: a deterministic digest
function (algorithm name and input string to the digest read as a
non-negative integer, as `int(hexdigest, 16)` does) together with the set of
available algorithm names (`hashlib.algorithms_available`).

Python exceptions are modelled with `Except PyError`; the only exceptions the
embedded code can raise are `ValueError` (unsupported algorithm name, or a
negative length passed to `bitarray`) and `ZeroDivisionError` (`size /
number_expected_elements` with zero elements, `k % len([])` with an empty
hash-function list, or `digest % 0` with a zero-size bit array).

The source computes `round((self.size / self.number_expected_elements) *
math.log(2))` in binary64 floating point.  We model this with exact
arithmetic on the fraction `(size * 6243314768165359) /
(number_expected_elements * 2^53)`, whose value is `(size /
number_expected_elements) * L` for `L` the exact rational value of the
binary64 constant `math.log(2)`, rounded with Python's banker's rounding;
the two computations agree at every input near the claims (and on an
exhaustive sweep of small capacities and element counts), differing at most
where the product falls within one float ulp of a rounding boundary.
-/

deriving instance DecidableEq for Except

namespace Lab2

/-- Abstraction of the external `hashlib` library: `digest a s` is
`int(hashlib.new(a, s.encode('utf-8')).hexdigest(), 16)`, a non-negative
integer, and `available` is membership in `hashlib.algorithms_available`. -/
structure Hashlib where
  digest : String → String → Nat
  available : String → Bool

/-- The Python exceptions the embedded code can raise. -/
inductive PyError where
  | valueError
  | zeroDivisionError
deriving DecidableEq, Repr

/-- Numerator of the exact rational value of the binary64 float
`math.log(2)` (`0x1.62e42fefa39efp-1`), whose denominator is `2 ^ 53`. -/
def log2Num : ℤ := 6243314768165359

/-- Denominator `2 ^ 53` of the exact rational value of the binary64 float
`math.log(2)`. -/
def log2Den : ℤ := 9007199254740992

/-- Python's built-in `round`, round-half-to-even (banker's rounding),
applied to the exact value of the fraction `num / den` (`den ≠ 0`).  Since
`Int` division is Euclidean, `a / b` with `b > 0` is floor division and
`a - b * (a / b)` is the remainder in `[0, b)`. -/
def pyRound (num den : ℤ) : ℤ :=
  let a := if den < 0 then -num else num
  let b := if den < 0 then -den else den
  let f := a / b
  let r := a - b * f
  if 2 * r < b then f
  else if 2 * r > b then f + 1
  else if f % 2 = 0 then f else f + 1

/-- State of a `BloomFilter` object.  `hash_function_names` stands for the
list `self.hash_functions` of closures: the closure at position `i` is
determined by the algorithm name it captured (via the default-argument
trick `algorithm = name`), so we record the names in order. -/
structure BloomFilter where
  size : ℤ
  number_expected_elements : ℤ
  bloom_filter : List Bool
  number_hash_functions : ℤ
  hash_function_names : List String
deriving DecidableEq, Repr

/-- The validation loop in `BloomFilter.__init__`: raises `ValueError` at the
first name not in `hashlib.algorithms_available`. -/
def validateNames (H : Hashlib) : List String → Except PyError Unit
  | [] => .ok ()
  | name :: rest =>
    if H.available name then validateNames H rest else .error .valueError

/-- `BloomFilter.__init__(size, number_expected_elements, hash_function_names)`.
Order of effects as in the source: `bitarray(size)` first (raises
`ValueError` on a negative length), then
`round((size / number_expected_elements) * math.log(2))` (raises
`ZeroDivisionError` when `number_expected_elements == 0`), then the default
`["md5"]` when the name list is `None`, then the validation loop. -/
def BloomFilter.init (H : Hashlib) (size number_expected_elements : ℤ)
    (hash_function_names : Option (List String)) : Except PyError BloomFilter :=
  if size < 0 then .error .valueError
  else if number_expected_elements = 0 then .error .zeroDivisionError
  else
    match validateNames H (hash_function_names.getD ["md5"]) with
    | .error e => .error e
    | .ok _ =>
      .ok { size := size
            number_expected_elements := number_expected_elements
            bloom_filter := List.replicate size.toNat false
            number_hash_functions :=
              pyRound (size * log2Num) (number_expected_elements * log2Den)
            hash_function_names := hash_function_names.getD ["md5"] }

/-- The closure produced by `create_hash_func`:
`int(hashlib.new(algorithm, s.encode()).hexdigest(), 16) % self.size`.
`% 0` raises `ZeroDivisionError`; `size` is never negative in a constructed
filter (`bitarray` rejects negative lengths). -/
def hashFuncValue (H : Hashlib) (algorithm : String) (size : ℤ)
    (s : String) : Except PyError Nat :=
  if size = 0 then .error .zeroDivisionError
  else .ok (H.digest algorithm s % size.toNat)

/-- `BloomFilter._hash(item, k)`:
`self.hash_functions[k % len(self.hash_functions)](item + str(k))`.
`k % len([])` raises `ZeroDivisionError`. -/
def BloomFilter._hash (H : Hashlib) (f : BloomFilter) (item : String)
    (k : ℕ) : Except PyError Nat :=
  if f.hash_function_names.length = 0 then .error .zeroDivisionError
  else
    hashFuncValue H
      (f.hash_function_names.getD (k % f.hash_function_names.length) "")
      f.size (item ++ toString k)

/-- `self.bloom_filter[index] = 1`. -/
def BloomFilter.setBit (f : BloomFilter) (index : ℕ) : BloomFilter :=
  { f with bloom_filter := f.bloom_filter.set index true }

/-- The loop body of `add_to_filter` over a list of round indices. -/
def BloomFilter.addLoop (H : Hashlib) (f : BloomFilter) (item : String) :
    List ℕ → Except PyError BloomFilter
  | [] => .ok f
  | i :: rest =>
    match f._hash H item i with
    | .error e => .error e
    | .ok index => BloomFilter.addLoop H (f.setBit index) item rest

/-- `BloomFilter.add_to_filter(item)`: for `i in range(number_hash_functions)`
set the bit at `self._hash(item, i)`.  A negative `number_hash_functions`
gives an empty range, hence `Int.toNat`. -/
def BloomFilter.add_to_filter (H : Hashlib) (f : BloomFilter)
    (item : String) : Except PyError BloomFilter :=
  f.addLoop H item (List.range f.number_hash_functions.toNat)

/-- The loop body of `check_is_not_in_filter`: returns `true` (definitely
absent) at the first round whose bit is 0, short-circuiting. -/
def BloomFilter.checkLoop (H : Hashlib) (f : BloomFilter) (item : String) :
    List ℕ → Except PyError Bool
  | [] => .ok false
  | i :: rest =>
    match f._hash H item i with
    | .error e => .error e
    | .ok index =>
      if f.bloom_filter.getD index false = false then .ok true
      else f.checkLoop H item rest

/-- `BloomFilter.check_is_not_in_filter(item)`: `True` means the item is
definitely not in the filter, `False` means it may be present. -/
def BloomFilter.check_is_not_in_filter (H : Hashlib) (f : BloomFilter)
    (item : String) : Except PyError Bool :=
  f.checkLoop H item (List.range f.number_hash_functions.toNat)

/-- The two HTTP 400 details the endpoints can produce: `str(ValueError)`
from `/init` (a configuration error) and "Фильтр Блума не инициализирован"
from `/add` and `/check`. -/
inductive ApiError where
  | configurationError
  | uninitializedError
deriving DecidableEq, Repr

/-- Outcome of an endpoint call: a 200 response, an `HTTPException(400)`
with one of the two details, or an uncaught Python exception. -/
inductive ApiOutcome (α : Type) where
  | ok (value : α)
  | httpError (detail : ApiError)
  | crash (e : PyError)
deriving DecidableEq, Repr

/-- Result of `/check`, as the two messages of `check_item`. -/
inductive CheckResult where
  | DefinitelyAbsent
  | PossiblyPresent
deriving DecidableEq, Repr

/-- The `/init` endpoint acting on the global `bloom_filter` variable: on
success the global is replaced wholesale; `ValueError` is caught and turned
into `HTTPException(400)`; any other exception propagates.  In either
failure case the assignment never happens, so the global keeps its prior
value `st`. -/
def init_bloom_filter (H : Hashlib) (st : Option BloomFilter)
    (size number_expected_elements : ℤ) (hash_function_names : List String) :
    Option BloomFilter × ApiOutcome Unit :=
  match BloomFilter.init H size number_expected_elements
      (some hash_function_names) with
  | .ok f => (some f, .ok ())
  | .error .valueError => (st, .httpError .configurationError)
  | .error .zeroDivisionError => (st, .crash .zeroDivisionError)

/-- The `/add` endpoint.  When `add_to_filter` raises, it does so at round 0
before any bit is set (its error conditions do not depend on the round
index), so the stored filter is unchanged. -/
def add_item (H : Hashlib) (st : Option BloomFilter) (key : String) :
    Option BloomFilter × ApiOutcome Unit :=
  match st with
  | none => (none, .httpError .uninitializedError)
  | some f =>
    match f.add_to_filter H key with
    | .ok f' => (some f', .ok ())
    | .error e => (some f, .crash e)

/-- The `/check` endpoint. -/
def check_item (H : Hashlib) (st : Option BloomFilter) (key : String) :
    Option BloomFilter × ApiOutcome CheckResult :=
  match st with
  | none => (none, .httpError .uninitializedError)
  | some f =>
    match f.check_is_not_in_filter H key with
    | .ok true => (some f, .ok .DefinitelyAbsent)
    | .ok false => (some f, .ok .PossiblyPresent)
    | .error e => (some f, .crash e)

/-- A finite sequence of `add_to_filter` calls on one filter instance. -/
def runAdds (H : Hashlib) (f : BloomFilter) :
    List String → Except PyError BloomFilter
  | [] => .ok f
  | x :: xs =>
    match f.add_to_filter H x with
    | .error e => .error e
    | .ok f' => runAdds H f' xs

/-- The number of hash rounds as the specification words it:
`round((capacity / expected_elements) * ln 2)` over the reals. -/
noncomputable def spec_hash_round_count (capacity expected_elements : ℝ) : ℤ :=
  round (capacity / expected_elements * Real.log 2)

/-- A concrete `Hashlib` instance used to evaluate the model on concrete
inputs: any deterministic digest function and any algorithm set containing
the guaranteed names exercise the code paths. -/
def toyHashlib : Hashlib where
  digest := fun _a s => s.length * 37 + 11
  available := fun s => ["md5", "sha1", "sha256", "sha512"].contains s

/-- The filter produced by `BloomFilter(10, 10, ["md5"])`:
`round(1 * log(2)) = 1` hash round and ten zero bits. -/
def egFilter : BloomFilter :=
  { size := 10
    number_expected_elements := 10
    bloom_filter := List.replicate 10 false
    number_hash_functions := 1
    hash_function_names := ["md5"] }

/-- `egFilter` after `add_to_filter("x")` under `toyHashlib`: round 0 hashes
`"x0"` to `(2 * 37 + 11) % 10 = 5`, setting bit 5. -/
def egFilterX : BloomFilter :=
  { egFilter with bloom_filter := (List.replicate 10 false).set 5 true }

/-- Setting a bit makes `getD` at that index read `true`. -/
theorem getD_set_self : ∀ (l : List Bool) (i : ℕ), i < l.length →
    (l.set i true).getD i false = true
  | [], _, h => absurd h (Nat.not_lt_zero _)
  | _ :: _, 0, _ => rfl
  | _ :: l, i + 1, h => getD_set_self l i (Nat.lt_of_succ_lt_succ h)

/-- Setting a bit never turns a `true` read into `false`. -/
theorem getD_set_mono : ∀ (l : List Bool) (i j : ℕ),
    l.getD j false = true → (l.set i true).getD j false = true
  | [], _, _, h => h
  | _ :: _, 0, 0, _ => rfl
  | _ :: _, 0, _ + 1, h => h
  | _ :: _, _ + 1, 0, h => h
  | _ :: l, i + 1, j + 1, h => getD_set_mono l i j h

/-- Setting an already-set bit, or an index beyond the array, is a no-op. -/
theorem set_true_eq_self : ∀ (l : List Bool) (i : ℕ),
    l.getD i false = true ∨ l.length ≤ i → l.set i true = l := by
  intro l
  induction l with
  | nil => intro i _; rfl
  | cons a l ih =>
    intro i h
    cases i with
    | zero =>
      rcases h with h | h
      · have ha : a = true := h
        simp [List.set, ha]
      · exact absurd h (by simp)
    | succ i =>
      have hl : l.set i true = l := by
        apply ih
        rcases h with h | h
        · exact Or.inl h
        · exact Or.inr (Nat.le_of_succ_le_succ h)
      simp [List.set, hl]

/-- Every read from the all-zero bit array is `false`. -/
theorem getD_replicate_false : ∀ (n j : ℕ),
    (List.replicate n false).getD j false = false
  | 0, _ => rfl
  | _ + 1, 0 => rfl
  | n + 1, j + 1 => getD_replicate_false n j

/-- `_hash` reads only the algorithm list and the capacity. -/
theorem hash_congr (H : Hashlib) (f g : BloomFilter) (item : String) (i : ℕ)
    (hs : f.size = g.size)
    (hn : f.hash_function_names = g.hash_function_names) :
    f._hash H item i = g._hash H item i := by
  simp only [BloomFilter._hash, hs, hn]

/-- The `add_to_filter` loop changes only the bit array, and preserves its
length. -/
theorem addLoop_fields (H : Hashlib) (item : String) :
    ∀ (rounds : List ℕ) (f g : BloomFilter),
      f.addLoop H item rounds = .ok g →
      g.size = f.size ∧ g.hash_function_names = f.hash_function_names ∧
      g.number_hash_functions = f.number_hash_functions ∧
      g.bloom_filter.length = f.bloom_filter.length := by
  intro rounds
  induction rounds with
  | nil =>
    intro f g h
    cases Except.ok.inj h
    exact ⟨rfl, rfl, rfl, rfl⟩
  | cons i rest ih =>
    intro f g h
    cases heq : f._hash H item i with
    | error e => simp [BloomFilter.addLoop, heq] at h
    | ok index =>
      simp only [BloomFilter.addLoop, heq] at h
      obtain ⟨h1, h2, h3, h4⟩ := ih _ _ h
      refine ⟨h1, h2, h3, ?_⟩
      rw [h4]
      simp [BloomFilter.setBit]

/-- The `add_to_filter` loop only turns bits on, never off. -/
theorem addLoop_mono (H : Hashlib) (item : String) :
    ∀ (rounds : List ℕ) (f g : BloomFilter) (j : ℕ),
      f.addLoop H item rounds = .ok g →
      f.bloom_filter.getD j false = true →
      g.bloom_filter.getD j false = true := by
  intro rounds
  induction rounds with
  | nil =>
    intro f g j h hj
    cases Except.ok.inj h
    exact hj
  | cons i rest ih =>
    intro f g j h hj
    cases heq : f._hash H item i with
    | error e => simp [BloomFilter.addLoop, heq] at h
    | ok index =>
      simp only [BloomFilter.addLoop, heq] at h
      exact ih _ _ _ h (getD_set_mono _ _ _ hj)

/-- After a successful `add_to_filter` loop, every processed round hashes to
an index whose bit is set in the result (or, for a malformed state, an index
beyond the array). -/
theorem addLoop_marks (H : Hashlib) (item : String) :
    ∀ (rounds : List ℕ) (f g : BloomFilter),
      f.addLoop H item rounds = .ok g →
      ∀ i ∈ rounds, ∃ idx, f._hash H item i = .ok idx ∧
        (g.bloom_filter.getD idx false = true ∨ g.bloom_filter.length ≤ idx) := by
  intro rounds
  induction rounds with
  | nil =>
    intro f g _ i hi
    exact absurd hi (List.not_mem_nil _)
  | cons i0 rest ih =>
    intro f g h i hi
    cases heq : f._hash H item i0 with
    | error e => simp [BloomFilter.addLoop, heq] at h
    | ok index =>
      simp only [BloomFilter.addLoop, heq] at h
      rcases List.mem_cons.mp hi with rfl | hi'
      · refine ⟨index, heq, ?_⟩
        by_cases hlen : index < f.bloom_filter.length
        · exact Or.inl (addLoop_mono H item rest _ g index h
            (getD_set_self _ _ hlen))
        · obtain ⟨-, -, -, h4⟩ := addLoop_fields H item rest _ g h
          have h5 : (f.setBit index).bloom_filter.length =
              f.bloom_filter.length := by
            simp [BloomFilter.setBit]
          exact Or.inr (by omega)
      · obtain ⟨idx, hh, hg⟩ := ih _ _ h i hi'
        exact ⟨idx, (hash_congr H f (f.setBit index) item i rfl rfl).trans hh, hg⟩

/-- Replaying the `add_to_filter` loop on a state whose round indices are all
already set (or out of range) leaves the state unchanged. -/
theorem addLoop_of_marks (H : Hashlib) (item : String) :
    ∀ (rounds : List ℕ) (f : BloomFilter),
      (∀ i ∈ rounds, ∃ idx, f._hash H item i = .ok idx ∧
        (f.bloom_filter.getD idx false = true ∨ f.bloom_filter.length ≤ idx)) →
      f.addLoop H item rounds = .ok f := by
  intro rounds
  induction rounds with
  | nil => intro f _; rfl
  | cons i0 rest ih =>
    intro f hm
    obtain ⟨idx, hh, hset⟩ := hm i0 (List.mem_cons_self _ _)
    have hbits : f.bloom_filter.set idx true = f.bloom_filter :=
      set_true_eq_self _ _ hset
    have hfix : f.setBit idx = f := by
      unfold BloomFilter.setBit
      rw [hbits]
    simp only [BloomFilter.addLoop, hh, hfix]
    exact ih f fun i hi => hm i (List.mem_cons_of_mem _ hi)

/-- A successful sequence of adds changes only the bit array, preserving
its length. -/
theorem runAdds_fields (H : Hashlib) :
    ∀ (adds : List String) (f g : BloomFilter),
      runAdds H f adds = .ok g →
      g.size = f.size ∧ g.hash_function_names = f.hash_function_names ∧
      g.number_hash_functions = f.number_hash_functions ∧
      g.bloom_filter.length = f.bloom_filter.length := by
  intro adds
  induction adds with
  | nil =>
    intro f g h
    cases Except.ok.inj h
    exact ⟨rfl, rfl, rfl, rfl⟩
  | cons x xs ih =>
    intro f g h
    cases heq : f.add_to_filter H x with
    | error e => simp [runAdds, heq] at h
    | ok f' =>
      simp only [runAdds, heq] at h
      obtain ⟨a1, a2, a3, a4⟩ := addLoop_fields H x _ f f' heq
      obtain ⟨b1, b2, b3, b4⟩ := ih f' g h
      exact ⟨b1.trans a1, b2.trans a2, b3.trans a3, b4.trans a4⟩

/-- A successful sequence of adds only turns bits on, never off. -/
theorem runAdds_mono (H : Hashlib) :
    ∀ (adds : List String) (f g : BloomFilter) (j : ℕ),
      runAdds H f adds = .ok g →
      f.bloom_filter.getD j false = true →
      g.bloom_filter.getD j false = true := by
  intro adds
  induction adds with
  | nil =>
    intro f g j h hj
    cases Except.ok.inj h
    exact hj
  | cons x xs ih =>
    intro f g j h hj
    cases heq : f.add_to_filter H x with
    | error e => simp [runAdds, heq] at h
    | ok f' =>
      simp only [runAdds, heq] at h
      exact ih f' g j h (addLoop_mono H x _ f f' j heq hj)

/-- Any index `_hash` returns is strictly below `size` (read as a natural
number), provided `size` is non-negative, as it is in every constructed
filter. -/
theorem hash_ok_lt (H : Hashlib) (f : BloomFilter) (item : String)
    (i idx : ℕ) (hs : 0 ≤ f.size) (h : f._hash H item i = .ok idx) :
    idx < f.size.toNat := by
  by_cases hn : f.hash_function_names.length = 0
  · simp [BloomFilter._hash, hn] at h
  · by_cases hz : f.size = 0
    · simp [BloomFilter._hash, hashFuncValue, hn, hz] at h
    · simp only [BloomFilter._hash, hashFuncValue, if_neg hn, if_neg hz] at h
      cases Except.ok.inj h
      exact Nat.mod_lt _ (by omega)

/-- If every round's index reads `true`, the check loop reports "possibly
present" (`false`). -/
theorem checkLoop_of_marks (H : Hashlib) (item : String) :
    ∀ (rounds : List ℕ) (f : BloomFilter),
      (∀ i ∈ rounds, ∃ idx, f._hash H item i = .ok idx ∧
          f.bloom_filter.getD idx false = true) →
      f.checkLoop H item rounds = .ok false := by
  intro rounds
  induction rounds with
  | nil => intro f _; rfl
  | cons i0 rest ih =>
    intro f hm
    obtain ⟨idx, hh, hbit⟩ := hm i0 (List.mem_cons_self _ _)
    simp only [BloomFilter.checkLoop, hh, hbit]
    exact ih f fun i hi => hm i (List.mem_cons_of_mem _ hi)

/-- The validation loop succeeds exactly when every name is available. -/
theorem validateNames_ok_iff (H : Hashlib) :
    ∀ names : List String, validateNames H names = .ok () ↔
      ∀ name ∈ names, H.available name = true := by
  intro names
  induction names with
  | nil => simp [validateNames]
  | cons a l ih =>
    by_cases ha : H.available a
    · simp [validateNames, ha, ih]
    · simp [validateNames, ha]

/-- The validation loop fails only with `ValueError`. -/
theorem validateNames_eq_error (H : Hashlib) :
    ∀ names : List String, validateNames H names ≠ .ok () →
      validateNames H names = .error .valueError := by
  intro names
  induction names with
  | nil => intro h; exact absurd rfl h
  | cons a l ih =>
    intro h
    by_cases ha : H.available a
    · simpa [validateNames, ha] using ih (by simpa [validateNames, ha] using h)
    · simp [validateNames, ha]

/-- Inversion of the constructor: `__init__` succeeds exactly on a
non-negative size, a non-zero expected-element count, and a validated name
list, and the resulting state is fully determined by the arguments. -/
theorem init_ok_iff (H : Hashlib) (size n : ℤ) (names? : Option (List String))
    (f : BloomFilter) :
    BloomFilter.init H size n names? = .ok f ↔
      0 ≤ size ∧ n ≠ 0 ∧ validateNames H (names?.getD ["md5"]) = .ok () ∧
      f = { size := size
            number_expected_elements := n
            bloom_filter := List.replicate size.toNat false
            number_hash_functions := pyRound (size * log2Num) (n * log2Den)
            hash_function_names := names?.getD ["md5"] } := by
  unfold BloomFilter.init
  by_cases h1 : size < 0
  · rw [if_pos h1]
    constructor
    · intro hh; cases hh
    · rintro ⟨hle, -⟩; omega
  · rw [if_neg h1]
    by_cases h2 : n = 0
    · rw [if_pos h2]
      constructor
      · intro hh; cases hh
      · rintro ⟨-, hne, -⟩; exact absurd h2 hne
    · rw [if_neg h2]
      cases hv : validateNames H (names?.getD ["md5"]) with
      | error e =>
        constructor
        · intro hh; cases hh
        · rintro ⟨-, -, hok, -⟩
          cases hok
      | ok u =>
        cases u
        constructor
        · intro hh
          exact ⟨by omega, h2, rfl, (Except.ok.inj hh).symm⟩
        · rintro ⟨-, -, -, hf⟩
          rw [hf]

/-- `pyRound` of a zero numerator is zero. -/
theorem pyRound_zero (den : ℤ) (h : den ≠ 0) : pyRound 0 den = 0 := by
  by_cases hd : den < 0
  · simp only [pyRound, if_pos hd, neg_zero, Int.zero_ediv, mul_zero,
      sub_zero]
    rw [if_pos (by omega)]
  · simp only [pyRound, if_neg hd, Int.zero_ediv, mul_zero, sub_zero]
    rw [if_pos (by omega)]

/-- Inverting a successful `/init` call: the constructor succeeded and its
result replaced the state. -/
theorem init_endpoint_ok (H : Hashlib) (st : Option BloomFilter)
    (size n : ℤ) (names : List String) (f : BloomFilter)
    (h : init_bloom_filter H st size n names = (some f, .ok ())) :
    BloomFilter.init H size n (some names) = .ok f := by
  unfold init_bloom_filter at h
  cases hv : BloomFilter.init H size n (some names) with
  | ok g =>
    simp only [hv] at h
    injection h with h1 h2
    rw [Option.some.inj h1]
  | error e =>
    cases e <;> simp only [hv] at h <;> simp at h

/-- With an empty algorithm list, the first round of the add loop raises
`ZeroDivisionError` from `k % len([])`. -/
theorem addLoop_empty_names (H : Hashlib) (f : BloomFilter) (item : String)
    (i : ℕ) (rest : List ℕ) (hnames : f.hash_function_names = []) :
    f.addLoop H item (i :: rest) = .error .zeroDivisionError := by
  simp [BloomFilter.addLoop, BloomFilter._hash, hnames]

/-- With an empty algorithm list, the first round of the check loop raises
`ZeroDivisionError` from `k % len([])`. -/
theorem checkLoop_empty_names (H : Hashlib) (f : BloomFilter) (item : String)
    (i : ℕ) (rest : List ℕ) (hnames : f.hash_function_names = []) :
    f.checkLoop H item (i :: rest) = .error .zeroDivisionError := by
  simp [BloomFilter.checkLoop, BloomFilter._hash, hnames]

/-- `add_to_filter` on a filter with an empty algorithm list but at least
one hash round raises `ZeroDivisionError`. -/
theorem add_error_of_empty_names (H : Hashlib) (f : BloomFilter)
    (item : String) (hnames : f.hash_function_names = [])
    (hk : 1 ≤ f.number_hash_functions) :
    f.add_to_filter H item = .error .zeroDivisionError := by
  unfold BloomFilter.add_to_filter
  obtain ⟨m, hm⟩ : ∃ m, f.number_hash_functions.toNat = m + 1 :=
    ⟨f.number_hash_functions.toNat - 1, by omega⟩
  rw [hm, List.range_succ_eq_map]
  exact addLoop_empty_names H f item 0 _ hnames

/-- `check_is_not_in_filter` on a filter with an empty algorithm list but at
least one hash round raises `ZeroDivisionError`. -/
theorem check_error_of_empty_names (H : Hashlib) (f : BloomFilter)
    (item : String) (hnames : f.hash_function_names = [])
    (hk : 1 ≤ f.number_hash_functions) :
    f.check_is_not_in_filter H item = .error .zeroDivisionError := by
  unfold BloomFilter.check_is_not_in_filter
  obtain ⟨m, hm⟩ : ∃ m, f.number_hash_functions.toNat = m + 1 :=
    ⟨f.number_hash_functions.toNat - 1, by omega⟩
  rw [hm, List.range_succ_eq_map]
  exact checkLoop_empty_names H f item 0 _ hnames

/-- C1: for every configured filter instance and every string `x`, once
`add_to_filter(x)` has completed on that instance, `check_is_not_in_filter(x)`
returns `False` (possibly present), regardless of which other items were
added before or after `x`. -/
theorem C1_no_false_negatives (H : Hashlib) (size n : ℤ) (names : List String)
    (pre post : List String) (x : String) (f0 f1 f2 f3 : BloomFilter)
    (hinit : BloomFilter.init H size n (some names) = .ok f0)
    (hpre : runAdds H f0 pre = .ok f1)
    (hadd : f1.add_to_filter H x = .ok f2)
    (hpost : runAdds H f2 post = .ok f3) :
    f3.check_is_not_in_filter H x = .ok false := by
  obtain ⟨hs0, -, -, hf0⟩ := (init_ok_iff H size n (some names) f0).mp hinit
  have hsz0 : 0 ≤ f0.size := by rw [hf0]; exact hs0
  have hlen0 : f0.bloom_filter.length = f0.size.toNat := by rw [hf0]; simp
  obtain ⟨p1, p2, p3, p4⟩ := runAdds_fields H pre f0 f1 hpre
  have hsz1 : 0 ≤ f1.size := p1 ▸ hsz0
  have hlen1 : f1.bloom_filter.length = f1.size.toNat := by
    rw [p4, p1, hlen0]
  obtain ⟨a1, a2, a3, a4⟩ := addLoop_fields H x _ f1 f2 hadd
  obtain ⟨q1, q2, q3, q4⟩ := runAdds_fields H post f2 f3 hpost
  have hmarks2 := addLoop_marks H x _ f1 f2 hadd
  have hk : f3.number_hash_functions = f1.number_hash_functions := q3.trans a3
  unfold BloomFilter.check_is_not_in_filter
  apply checkLoop_of_marks
  intro i hi
  rw [hk] at hi
  obtain ⟨idx, hh, hor⟩ := hmarks2 i hi
  have hcong13 : f3._hash H x i = f1._hash H x i :=
    hash_congr H f3 f1 x i (q1.trans a1) (q2.trans a2)
  refine ⟨idx, hcong13.trans hh, ?_⟩
  have hidx : idx < f1.size.toNat := hash_ok_lt H f1 x i idx hsz1 hh
  rcases hor with hbit | hoob
  · exact runAdds_mono H post f2 f3 idx hpost hbit
  · exact absurd hoob (by omega)

/-- C1 witness: a concrete run — configure `BloomFilter(10, 10, ["md5"])`,
add `"x"`, add `"y"`, then check `"x"` — lands in the possibly-present
branch. -/
theorem C1_no_false_negatives_witness :
    BloomFilter.init toyHashlib 10 10 (some ["md5"]) = .ok egFilter
  ∧ runAdds toyHashlib egFilter [] = .ok egFilter
  ∧ egFilter.add_to_filter toyHashlib "x" = .ok egFilterX
  ∧ runAdds toyHashlib egFilterX ["y"] = .ok egFilterX
  ∧ egFilterX.check_is_not_in_filter toyHashlib "x" = .ok false :=
  ⟨by decide, by decide, by decide, by decide,
    C1_no_false_negatives toyHashlib 10 10 ["md5"] [] ["y"] "x"
      egFilter egFilter egFilterX egFilterX
      (by decide) (by decide) (by decide) (by decide)⟩

/-- C2 counterexample: `BloomFilter(1, 2, ["md5"])` is a successful
configuration with positive capacity and expected elements, yet its
`number_hash_functions` is `round((1/2) * log(2)) = 0`, not at least 1. -/
theorem C2_counterexample :
    BloomFilter.init toyHashlib 1 2 (some ["md5"])
      = .ok { size := 1
              number_expected_elements := 2
              bloom_filter := [false]
              number_hash_functions := 0
              hash_function_names := ["md5"] }
  ∧ ¬ (1 : ℤ) ≤ 0 :=
  ⟨by decide, by decide⟩

/-- C2 amended: for every successful configuration, `hash_round_count`
equals `round((capacity / expected_elements) * ln 2)` (computed as the
source does, in binary64); there is no minimum of 1, and the count is 0
whenever the ratio times `ln 2` rounds down to zero (e.g. capacity 1,
expected elements 2). -/
theorem C2_amended_hash_round_count (H : Hashlib) (size n : ℤ)
    (names? : Option (List String)) (f : BloomFilter)
    (h : BloomFilter.init H size n names? = .ok f) :
    f.number_hash_functions = pyRound (size * log2Num) (n * log2Den) := by
  obtain ⟨-, -, -, hf⟩ := (init_ok_iff H size n names? f).mp h
  rw [hf]

/-- C2 witness: the amended statement evaluated on `BloomFilter(10, 10,
["md5"])`, whose round count is `round(log(2)) = 1`. -/
theorem C2_amended_hash_round_count_witness :
    egFilter.number_hash_functions = pyRound (10 * log2Num) (10 * log2Den) :=
  C2_amended_hash_round_count toyHashlib 10 10 (some ["md5"]) egFilter
    (by decide)

/-- C4: on a filter with a non-empty algorithm list and positive capacity,
`_hash(item, r)` selects the algorithm at position `r mod len(names)`,
digests `item ++ decimal_string(r)`, reduces the digest modulo the capacity,
and hence always lands in `[0, capacity)`. -/
theorem C4_hash_formula (H : Hashlib) (f : BloomFilter) (item : String)
    (r : ℕ) (hnames : f.hash_function_names ≠ []) (hsize : 0 < f.size) :
    f._hash H item r
      = .ok (H.digest
              (f.hash_function_names.getD (r % f.hash_function_names.length) "")
              (item ++ toString r) % f.size.toNat)
  ∧ ∀ v, f._hash H item r = .ok v → v < f.size.toNat := by
  have hlen : ¬ f.hash_function_names.length = 0 := by
    simpa [List.length_eq_zero] using hnames
  have hz : ¬ f.size = 0 := by omega
  refine ⟨?_, ?_⟩
  · simp only [BloomFilter._hash, hashFuncValue, if_neg hlen, if_neg hz]
  · intro v hv
    exact hash_ok_lt H f item r v (le_of_lt hsize) hv

/-- C4 witness: the hash formula evaluated on `egFilter` at round 3 under
the concrete digest. -/
theorem C4_hash_formula_witness :
    egFilter.hash_function_names ≠ [] ∧ (0 : ℤ) < egFilter.size ∧
    (egFilter._hash toyHashlib "a" 3
        = .ok (toyHashlib.digest
                (egFilter.hash_function_names.getD
                  (3 % egFilter.hash_function_names.length) "")
                ("a" ++ toString 3) % egFilter.size.toNat)
      ∧ ∀ v, egFilter._hash toyHashlib "a" 3 = .ok v →
          v < egFilter.size.toNat) :=
  ⟨by decide, by decide,
    C4_hash_formula toyHashlib egFilter "a" 3 (by decide) (by decide)⟩

/-- C5: calling `/add` or `/check` with no configured filter returns the
uninitialized error (HTTP 400) and leaves the state untouched. -/
theorem C5_uninitialized (H : Hashlib) (key : String) :
    add_item H none key = (none, .httpError .uninitializedError)
  ∧ check_item H none key = (none, .httpError .uninitializedError) :=
  ⟨rfl, rfl⟩

/-- C7: `add_to_filter` is idempotent — adding the same item again from the
state a successful add produced returns that state unchanged. -/
theorem C7_add_idempotent (H : Hashlib) (f f' : BloomFilter) (x : String)
    (h : f.add_to_filter H x = .ok f') :
    f'.add_to_filter H x = .ok f' := by
  obtain ⟨h1, h2, h3, -⟩ := addLoop_fields H x _ f f' h
  have hmarks := addLoop_marks H x _ f f' h
  unfold BloomFilter.add_to_filter
  rw [h3]
  apply addLoop_of_marks
  intro i hi
  obtain ⟨idx, hh, hor⟩ := hmarks i hi
  exact ⟨idx, (hash_congr H f' f x i h1 h2).trans hh, hor⟩

/-- C7 witness: adding `"x"` twice to `egFilter` yields the same state as
adding it once. -/
theorem C7_add_idempotent_witness :
    egFilter.add_to_filter toyHashlib "x" = .ok egFilterX
  ∧ egFilterX.add_to_filter toyHashlib "x" = .ok egFilterX :=
  ⟨by decide, C7_add_idempotent toyHashlib egFilter egFilterX "x" (by decide)⟩

/-- C8: two filters constructed from the identical configuration and fed the
identical sequence of adds have bit-for-bit identical storage and agree on
every query. -/
theorem C8_determinism (H : Hashlib) (size n : ℤ)
    (names? : Option (List String)) (adds : List String)
    (f0 g0 f1 g1 : BloomFilter)
    (hf0 : BloomFilter.init H size n names? = .ok f0)
    (hg0 : BloomFilter.init H size n names? = .ok g0)
    (hf1 : runAdds H f0 adds = .ok f1)
    (hg1 : runAdds H g0 adds = .ok g1) :
    f1.bloom_filter = g1.bloom_filter
  ∧ ∀ q, f1.check_is_not_in_filter H q = g1.check_is_not_in_filter H q := by
  cases Except.ok.inj (hf0.symm.trans hg0)
  cases Except.ok.inj (hf1.symm.trans hg1)
  exact ⟨rfl, fun _ => rfl⟩

/-- C8 witness: two copies of `BloomFilter(10, 10, ["md5"])` each fed
`["x"]` agree bit-for-bit and on the query `"y"`. -/
theorem C8_determinism_witness :
    BloomFilter.init toyHashlib 10 10 (some ["md5"]) = .ok egFilter
  ∧ runAdds toyHashlib egFilter ["x"] = .ok egFilterX
  ∧ (egFilterX.bloom_filter = egFilterX.bloom_filter
      ∧ ∀ q, egFilterX.check_is_not_in_filter toyHashlib q
          = egFilterX.check_is_not_in_filter toyHashlib q) :=
  ⟨by decide, by decide,
    C8_determinism toyHashlib 10 10 (some ["md5"]) ["x"]
      egFilter egFilter egFilterX egFilterX
      (by decide) (by decide) (by decide) (by decide)⟩

/-- C3 counterexample: `/init` with `capacity = 0` (a value the claim says
must fail with `ConfigurationError`) succeeds and installs a filter with an
empty bit array and zero hash rounds. -/
theorem C3_counterexample :
    init_bloom_filter toyHashlib none 0 5 ["md5"]
      = (some { size := 0
                number_expected_elements := 5
                bloom_filter := []
                number_hash_functions := 0
                hash_function_names := ["md5"] },
         .ok ()) := by decide

/-- C3 amended: `/init` fails with `ConfigurationError` (HTTP 400) exactly
when the capacity is negative, or the capacity is non-negative, the
expected-element count non-zero, and some supplied algorithm name is
unsupported; `capacity = 0` succeeds; `expected_elements = 0` instead
raises an uncaught `ZeroDivisionError`.  On any failure the previous state
survives, so `add` on a never-configured service fails with
`UninitializedError`. -/
theorem C3_amended_configure_errors (H : Hashlib) (st : Option BloomFilter)
    (size n : ℤ) (names : List String) :
    ((init_bloom_filter H st size n names).2
        = .httpError .configurationError
      ↔ (size < 0
          ∨ (0 ≤ size ∧ n ≠ 0 ∧ ¬ ∀ name ∈ names, H.available name = true)))
  ∧ ((init_bloom_filter H st size n names).2 = .crash .zeroDivisionError
      ↔ (0 ≤ size ∧ n = 0))
  ∧ ((init_bloom_filter H st size n names).2 ≠ .ok ()
      → (init_bloom_filter H st size n names).1 = st)
  ∧ (∀ key, add_item H none key = (none, .httpError .uninitializedError)) := by
  have hadd : ∀ key, add_item H none key
      = (none, .httpError .uninitializedError) := fun _ => rfl
  by_cases h1 : size < 0
  · have hini : init_bloom_filter H st size n names
        = (st, .httpError .configurationError) := by
      unfold init_bloom_filter BloomFilter.init
      rw [if_pos h1]
    rw [hini]
    refine ⟨?_, ?_, fun _ => rfl, hadd⟩
    · constructor
      · intro _; exact Or.inl h1
      · intro _; rfl
    · constructor
      · intro hh; cases hh
      · rintro ⟨hle, -⟩; omega
  · by_cases h2 : n = 0
    · have hini : init_bloom_filter H st size n names
          = (st, .crash .zeroDivisionError) := by
        unfold init_bloom_filter BloomFilter.init
        rw [if_neg h1, if_pos h2]
      rw [hini]
      refine ⟨?_, ?_, fun _ => rfl, hadd⟩
      · constructor
        · intro hh; cases hh
        · rintro (hlt | ⟨-, hne, -⟩)
          · omega
          · exact absurd h2 hne
      · constructor
        · intro _; exact ⟨by omega, h2⟩
        · intro _; rfl
    · cases hv : validateNames H names with
      | ok u =>
        cases u
        have hall : ∀ name ∈ names, H.available name = true :=
          (validateNames_ok_iff H names).mp hv
        have hini : init_bloom_filter H st size n names
            = (some { size := size
                      number_expected_elements := n
                      bloom_filter := List.replicate size.toNat false
                      number_hash_functions :=
                        pyRound (size * log2Num) (n * log2Den)
                      hash_function_names := names }, .ok ()) := by
          simp only [init_bloom_filter, BloomFilter.init, if_neg h1,
            if_neg h2, Option.getD_some, hv]
        rw [hini]
        refine ⟨?_, ?_, ?_, hadd⟩
        · constructor
          · intro hh; cases hh
          · rintro (hlt | ⟨-, -, hnall⟩)
            · omega
            · exact absurd hall hnall
        · constructor
          · intro hh; cases hh
          · rintro ⟨-, hzero⟩; exact absurd hzero h2
        · intro hcon; exact absurd rfl hcon
      | error e =>
        have he : validateNames H names = .error .valueError :=
          validateNames_eq_error H names (by rw [hv]; intro hh; cases hh)
        have hnall : ¬ ∀ name ∈ names, H.available name = true := by
          intro hall
          have hok := (validateNames_ok_iff H names).mpr hall
          rw [hok] at he
          cases he
        have hini : init_bloom_filter H st size n names
            = (st, .httpError .configurationError) := by
          simp only [init_bloom_filter, BloomFilter.init, if_neg h1,
            if_neg h2, Option.getD_some, he]
        rw [hini]
        refine ⟨?_, ?_, fun _ => rfl, hadd⟩
        · constructor
          · intro _; exact Or.inr ⟨by omega, h2, hnall⟩
          · intro _; rfl
        · constructor
          · intro hh; cases hh
          · rintro ⟨-, hzero⟩; exact absurd hzero h2

/-- C3 witness: a consequence of the amended claim at a concrete input — an
unsupported algorithm name is rejected as a configuration error. -/
theorem C3_amended_configure_errors_witness :
    (init_bloom_filter toyHashlib none 10 5 ["not-a-real-algorithm"]).2
      = .httpError .configurationError :=
  (C3_amended_configure_errors toyHashlib none 10 5
      ["not-a-real-algorithm"]).1.mpr
    (Or.inr ⟨by decide, by decide, by decide⟩)

/-- C6 counterexample: `configure(c1); add("x"); configure(c2)` with the
fresh valid configuration `c2 = (capacity 1, expected 2, ["md5"])` — the
replacement succeeds, yet `check("x")` returns `PossiblyPresent`, not
`DefinitelyAbsent`, because `c2`'s hash round count is 0. -/
theorem C6_counterexample :
    (init_bloom_filter toyHashlib
        (add_item toyHashlib
            (init_bloom_filter toyHashlib none 10 10 ["md5"]).1 "x").1
        1 2 ["md5"]).1
      = some { size := 1
               number_expected_elements := 2
               bloom_filter := [false]
               number_hash_functions := 0
               hash_function_names := ["md5"] }
  ∧ (check_item toyHashlib
        (init_bloom_filter toyHashlib
            (add_item toyHashlib
                (init_bloom_filter toyHashlib none 10 10 ["md5"]).1 "x").1
            1 2 ["md5"]).1 "x").2
      = .ok .PossiblyPresent :=
  ⟨by decide, by decide⟩

/-- C6 amended: a successful reconfiguration installs a filter whose bit
array is all zero, independent of any previous state; provided the new
configuration has a non-empty algorithm list and at least one hash round,
`check` on it returns `DefinitelyAbsent` for every key. -/
theorem C6_amended_replacement (H : Hashlib) (st : Option BloomFilter)
    (size n : ℤ) (names : List String) (f2 : BloomFilter) (x : String)
    (hcfg : init_bloom_filter H st size n names = (some f2, .ok ()))
    (hnames : names ≠ []) (hk : 1 ≤ f2.number_hash_functions) :
    f2.bloom_filter = List.replicate f2.size.toNat false
  ∧ check_item H (some f2) x = (some f2, .ok .DefinitelyAbsent) := by
  have hinit := init_endpoint_ok H st size n names f2 hcfg
  obtain ⟨hs, hn, -, hf⟩ := (init_ok_iff H size n (some names) f2).mp hinit
  have hsize_f : f2.size = size := by rw [hf]
  have hnames_f : f2.hash_function_names = names := by rw [hf]; rfl
  have hkval : f2.number_hash_functions
      = pyRound (size * log2Num) (n * log2Den) := by rw [hf]
  have hbits : f2.bloom_filter = List.replicate f2.size.toNat false := by
    rw [hf]
  have hksz : ¬ f2.size = 0 := by
    intro h0
    have hz : size = 0 := by omega
    rw [hkval, hz, zero_mul,
      pyRound_zero _ (mul_ne_zero hn (by decide))] at hk
    omega
  have hlen : ¬ f2.hash_function_names.length = 0 := by
    rw [hnames_f]
    simpa [List.length_eq_zero] using hnames
  have hchk : f2.check_is_not_in_filter H x = .ok true := by
    unfold BloomFilter.check_is_not_in_filter
    obtain ⟨m, hm⟩ : ∃ m, f2.number_hash_functions.toNat = m + 1 :=
      ⟨f2.number_hash_functions.toNat - 1, by omega⟩
    rw [hm, List.range_succ_eq_map]
    have hhash : f2._hash H x 0
        = .ok (H.digest (f2.hash_function_names.getD 0 "")
            (x ++ toString 0) % f2.size.toNat) := by
      simp only [BloomFilter._hash, hashFuncValue, if_neg hlen, if_neg hksz,
        Nat.zero_mod]
    simp only [BloomFilter.checkLoop, hhash]
    rw [hbits, getD_replicate_false]
    simp
  refine ⟨hbits, ?_⟩
  simp [check_item, hchk]

/-- C6 witness: reconfiguring (from the empty state) to
`BloomFilter(10, 10, ["md5"])` yields an all-zero array and a
definitely-absent answer for `"q"`. -/
theorem C6_amended_replacement_witness :
    init_bloom_filter toyHashlib none 10 10 ["md5"] = (some egFilter, .ok ())
  ∧ ["md5"] ≠ ([] : List String)
  ∧ (1 : ℤ) ≤ egFilter.number_hash_functions
  ∧ (egFilter.bloom_filter = List.replicate egFilter.size.toNat false
      ∧ check_item toyHashlib (some egFilter) "q"
          = (some egFilter, .ok .DefinitelyAbsent)) :=
  ⟨by decide, by decide, by decide,
    C6_amended_replacement toyHashlib none 10 10 ["md5"] egFilter "q"
      (by decide) (by decide) (by decide)⟩

/-- C9: `configure(capacity=1000, expected_elements=100, ["sha256"])`
succeeds (whenever `sha256` is available, as `hashlib` guarantees) and
produces `hash_round_count = 7`, which agrees with the specification's
real-valued formula `round((1000/100) * ln 2) = 7`. -/
theorem C9_optimal_round_formula (H : Hashlib)
    (h : H.available "sha256" = true) :
    (∃ f, BloomFilter.init H 1000 100 (some ["sha256"]) = .ok f
        ∧ f.number_hash_functions = 7)
  ∧ spec_hash_round_count 1000 100 = 7 := by
  constructor
  · refine ⟨_, (init_ok_iff H 1000 100 (some ["sha256"]) _).mpr
      ⟨by omega, by omega, ?_, rfl⟩, ?_⟩
    · simp [validateNames, h]
    · show pyRound (1000 * log2Num) (100 * log2Den) = 7
      decide
  · unfold spec_hash_round_count
    have hlo := Real.log_two_gt_d9
    have hhi := Real.log_two_lt_d9
    have h10 : (1000 : ℝ) / 100 * Real.log 2 = 10 * Real.log 2 := by
      norm_num
    rw [h10, round_eq]
    refine Int.floor_eq_iff.mpr ⟨?_, ?_⟩
    · push_cast
      nlinarith
    · push_cast
      nlinarith

/-- C9 witness: the theorem applied to the concrete hash library. -/
theorem C9_optimal_round_formula_witness :
    toyHashlib.available "sha256" = true
  ∧ ((∃ f, BloomFilter.init toyHashlib 1000 100 (some ["sha256"]) = .ok f
        ∧ f.number_hash_functions = 7)
      ∧ spec_hash_round_count 1000 100 = 7) :=
  ⟨by decide, C9_optimal_round_formula toyHashlib (by decide)⟩

/-- C10: constructing a filter with an explicitly empty algorithm list
succeeds (the validation loop checks nothing and only a missing list
defaults to `md5`), and on such a filter with at least one hash round every
`add` and every `check` raises `ZeroDivisionError` from `k % len([])` when
selecting a hash function, rather than returning a result or a
configuration error. -/
theorem C10_empty_algorithm_list (H : Hashlib) (size n : ℤ)
    (hsz : 0 ≤ size) (hn : n ≠ 0) :
    ∃ f, BloomFilter.init H size n (some []) = .ok f
      ∧ f.hash_function_names = []
      ∧ (1 ≤ f.number_hash_functions →
          ∀ item, f.add_to_filter H item = .error .zeroDivisionError
            ∧ f.check_is_not_in_filter H item = .error .zeroDivisionError) := by
  refine ⟨_, (init_ok_iff H size n (some []) _).mpr ⟨hsz, hn, rfl, rfl⟩,
    rfl, ?_⟩
  intro hk item
  exact ⟨add_error_of_empty_names H _ item rfl hk,
    check_error_of_empty_names H _ item rfl hk⟩

/-- C10 witness: the empty-list filter at capacity 1000 and 100 expected
elements (7 hash rounds). -/
theorem C10_empty_algorithm_list_witness :
    (0 : ℤ) ≤ 1000
  ∧ (100 : ℤ) ≠ 0
  ∧ ∃ f, BloomFilter.init toyHashlib 1000 100 (some []) = .ok f
      ∧ f.hash_function_names = []
      ∧ (1 ≤ f.number_hash_functions →
          ∀ item, f.add_to_filter toyHashlib item = .error .zeroDivisionError
            ∧ f.check_is_not_in_filter toyHashlib item
                = .error .zeroDivisionError) :=
  ⟨by decide, by decide,
    C10_empty_algorithm_list toyHashlib 1000 100 (by decide) (by decide)⟩

end Lab2
